import Mathlib

/-!
# Verification of the hindsight stack-capture and symbolization library

A shallow embedding, in Lean 4, of the parts of the hindsight library that
produce stack traces (the unwinder loops of `capture_posix.cpp` and
`capture_windows.cpp`), symbolize addresses (the libdw resolver of
`resolver_libdw.cpp`), look up modules remotely (`windows/module_map.cpp`)
and format addresses (`stacktrace_entry.cpp` and the fmt formatter of
`stacktrace_entry.hpp`).  Machine words are modelled as `Nat` (the values
that occur are instruction pointers already bounded by the pointer width;
the only arithmetic performed on them is the saturating `ip - 1` of the
reporting rule, which in C++ operates on a value already checked to be
non-zero).  Caller-supplied sinks are modelled as pure functions from the
number of frames emitted so far to the "done" flag they return, which is
exactly the behaviour of the iterator/output-range adapters the library
wraps around them.
-/

namespace Hindsight

/-! ## Unwinder (capture) model

`detail::capture_stacktrace_from_mutable_context` on POSIX walks a libunwind
cursor.  A cursor position is characterised by the outcome of `unw_get_reg`
(`getRegOk`), the instruction-pointer value read (`ip`) and the result of
`unw_is_signal_frame` (`isSignalFrame`, true iff the call returned a
positive value).  The successive cursor positions visited while
`unw_step > 0` are modelled as a list. -/

structure UnwindFrame where
  getRegOk : Bool
  ip : Nat
  isSignalFrame : Bool
deriving DecidableEq, Repr

/-- The guard `unw_get_reg(&cursor, UNW_REG_IP, &instruction_ptr) == 0 &&
instruction_ptr != 0` of the POSIX capture loop. -/
def frameEligible (f : UnwindFrame) : Bool :=
  f.getRegOk && f.ip != 0

/-- The reporting address of one POSIX frame: `ip` is decremented unless
`unw_is_signal_frame` returned a positive value. -/
def reportingAddress (f : UnwindFrame) : Nat :=
  if f.isSignalFrame then f.ip else f.ip - 1

/-- The sink that never reports "done" (an unbounded output range). -/
def neverDone : Nat → Bool := fun _ => false

/-- The body of `detail::capture_stacktrace_from_mutable_context` (POSIX):
the do/while loop over cursor positions.  `skip` is `entries_to_skip`,
`count` is the number of entries already handed to the sink (the argument
of the sink model). -/
def captureLoopPosix (sink : Nat → Bool) :
    List UnwindFrame → Nat → Nat → List Nat
  | [], _, _ => []
  | f :: rest, skip, count =>
    if frameEligible f then
      match skip with
      | k + 1 => captureLoopPosix sink rest k count
      | 0 =>
        reportingAddress f ::
          (if sink count then [] else captureLoopPosix sink rest 0 (count + 1))
    else captureLoopPosix sink rest skip count

/-- `detail::capture_stacktrace_from_mutable_context` (POSIX).  `initOk`
is the success of `unw_init_local`; on failure the function returns without
emitting anything. -/
def capture_stacktrace_from_mutable_context (initOk : Bool)
    (frames : List UnwindFrame) (skip : Nat) (sink : Nat → Bool) : List Nat :=
  if initOk then captureLoopPosix sink frames skip 0 else []

/-- `detail::capture_stacktrace` (POSIX): saves the current context with
`unw_getcontext` (success modelled by `getContextOk`) and forwards
`entries_to_skip` unchanged to the mutable-context walker. -/
def capture_stacktrace_posix (getContextOk initOk : Bool)
    (frames : List UnwindFrame) (skip : Nat) (sink : Nat → Bool) : List Nat :=
  if getContextOk then
    capture_stacktrace_from_mutable_context initOk frames skip sink
  else []

/-- `detail::capture_stacktrace_from_context` (POSIX): copies the context
and forwards everything, the skip count included, unchanged. -/
def capture_stacktrace_from_context (initOk : Bool)
    (frames : List UnwindFrame) (skip : Nat) (sink : Nat → Bool) : List Nat :=
  capture_stacktrace_from_mutable_context initOk frames skip sink

/-! On Windows the walker reads the instruction pointer straight from the
`CONTEXT`; a frame is just the `ip` value of one context in the chain of
virtual unwinds.  The do/while loop runs its body on the initial context
unconditionally and keeps running while the instruction pointer of the
context produced by the unwind step is non-zero. -/

/-- The contexts on which the body of the Windows do/while loop runs: the
initial context, then every successive context until (excluding) the first
whose instruction pointer is zero. -/
def processedContexts (ips : List Nat) : List Nat :=
  match ips with
  | [] => []
  | ip0 :: rest => ip0 :: rest.takeWhile (fun ip => ip != 0)

/-- The body of the Windows capture loop applied to the processed contexts:
emit `ip - 1` (always decremented; there is no signal-frame test in the
Windows walker) for every non-zero `ip` past the skip count, stopping when
the sink reports "done". -/
def captureLoopWindows (sink : Nat → Bool) :
    List Nat → Nat → Nat → List Nat
  | [], _, _ => []
  | ip :: rest, skip, count =>
    if ip != 0 then
      match skip with
      | k + 1 => captureLoopWindows sink rest k count
      | 0 =>
        (ip - 1) ::
          (if sink count then [] else captureLoopWindows sink rest 0 (count + 1))
    else captureLoopWindows sink rest skip count

/-- `detail::capture_stacktrace_from_mutable_context` (Windows). -/
def capture_from_mutable_context_windows (ips : List Nat) (skip : Nat)
    (sink : Nat → Bool) : List Nat :=
  captureLoopWindows sink (processedContexts ips) skip 0

/-- Modelled from the spec: the definition of
`detail::increment_if_has_noinline` is not present in the sources (only its
caller in `capture_windows.cpp` is).  Per the spec's skip-count contract,
the capture-from-current facade "increments `skip` by one (if the compiler
supports disabling inlining of the capture entry point)";
`hasNoinline` models the `HINDSIGHT_HAS_NOINLINE` configuration macro. -/
def increment_if_has_noinline (hasNoinline : Bool) (skip : Nat) : Nat :=
  if hasNoinline then skip + 1 else skip

/-- `detail::capture_stacktrace` (Windows): captures the current context
with `RtlCaptureContext`, applies `increment_if_has_noinline` to
`entries_to_skip` and runs the mutable-context walker. -/
def capture_stacktrace_windows (hasNoinline : Bool) (ips : List Nat)
    (skip : Nat) (sink : Nat → Bool) : List Nat :=
  capture_from_mutable_context_windows ips
    (increment_if_has_noinline hasNoinline skip) sink

/-- `detail::capture_stacktrace_from_context` (Windows): copies the context
and forwards the skip count unchanged. -/
def capture_from_context_windows (ips : List Nat) (skip : Nat)
    (sink : Nat → Bool) : List Nat :=
  capture_from_mutable_context_windows ips skip sink

/-- A context position on the Windows unwind chain, annotated with ground
truth the walker never reads: whether this `CONTEXT` was produced by
exception delivery (an SEH/vectored-handler context, whose instruction
pointer is the faulting instruction itself rather than a return address).
`capture_stacktrace_from_mutable_context` on Windows reads only the
instruction pointer — it has no counterpart of `unw_is_signal_frame`. -/
structure WindowsContextFrame where
  ip : Nat
  isExceptionDelivery : Bool
deriving DecidableEq, Repr

/-- The Windows capture on annotated context frames: the walker consults
only the instruction pointers; the exception-delivery attribute is
invisible to it. -/
def capture_windows_annotated (wframes : List WindowsContextFrame)
    (skip : Nat) (sink : Nat → Bool) : List Nat :=
  capture_from_mutable_context_windows
    (wframes.map WindowsContextFrame.ip) skip sink

/-! ## Symbolizer (libdw resolver) model

`resolver_libdw.cpp`.  A DWARF debugging-information entry is characterised
by the data the resolver reads from it: its tag, whether its address ranges
contain the address being resolved (`die_has_address` applied to the
biased address), the result of `func_name_search::search` on it (the name
found, if any, and the accompanying maybe-mangled flag) and the source
location recorded in its `DW_AT_call_file` / `DW_AT_call_line` /
`DW_AT_call_column` attributes (`get_inline_call_location`). -/

inductive DieTag where
  | subprogram
  | inlinedSubroutine
  | entryPoint
  | otherTag
deriving DecidableEq, Repr

structure SrcLoc where
  fileName : String
  lineNumber : Nat
  columnNumber : Nat
deriving DecidableEq, Repr

structure Die where
  tag : DieTag
  hasAddr : Bool
  funcName : Option (String × Bool)
  callLoc : Option SrcLoc
deriving DecidableEq, Repr

/-- `is_function`: the tag is `DW_TAG_subprogram`, `DW_TAG_inlined_subroutine`
or `DW_TAG_entry_point`. -/
def isFunctionDie (d : Die) : Bool :=
  d.tag == DieTag.subprogram || d.tag == DieTag.inlinedSubroutine ||
    d.tag == DieTag.entryPoint

/-- `is_inline_function`: the tag is `DW_TAG_inlined_subroutine`. -/
def isInlineFunctionDie (d : Die) : Bool :=
  d.tag == DieTag.inlinedSubroutine

/-- The DIE tree of a compilation unit (children in sibling order). -/
inductive DieTree where
  | node (info : Die) (children : List DieTree)

mutual

/-- `resolver::impl::depth_first_search_for_address`: post-order
depth-first search.  The imperative loop pushes the first child of an
unexplored DIE, walks siblings in place, and tests
`is_function(die) && die_has_address(die, address_in_cu)` only once the
DIE's subtree is exhausted; on a hit it stops with the stack holding the
hit and its ancestor chain.  This function returns that stack as a list,
innermost (top of stack) first; `none` models the empty stack. -/
def dfsFindPath : DieTree → Option (List Die)
  | .node d children =>
    match dfsFindPathForest children with
    | some path => some (path ++ [d])
    | none =>
      if isFunctionDie d && d.hasAddr then some [d] else none

/-- Sibling iteration of `depth_first_search_for_address`. -/
def dfsFindPathForest : List DieTree → Option (List Die)
  | [] => none
  | t :: ts =>
    match dfsFindPath t with
    | some path => some path
    | none => dfsFindPathForest ts

end

/-- The fields of `logical_stacktrace_entry` (Linux/libdw variant): the
arguments of its nine-argument constructor apart from the `impl_tag` and
the shared resolver reference.  Null `const char *` values are `none`. -/
structure LogicalStacktraceEntry where
  physical : Nat
  isInline : Bool
  maybeMangled : Bool
  symbol : Option String
  fileName : Option String
  lineNumber : Nat
  columnNumber : Nat
deriving DecidableEq, Repr

/-- The public `basic_source_location<Char>`: a file name and a line
number; the struct has no column field. -/
structure SourceLocation where
  fileName : String
  lineNumber : Nat
deriving DecidableEq, Repr

/-- `demangle_and_encode_symbol`, the body of
`logical_stacktrace_entry::symbol` / `u8_symbol`.  `demangle` (the
Itanium-ABI demangler) and `transcode` (iconv-based re-encoding) are
external collaborators modelled as pure functions. -/
def LogicalStacktraceEntry.symbolText (demangle : String → Option String)
    (transcode : String → String) (e : LogicalStacktraceEntry) : String :=
  match e.symbol with
  | none => ""
  | some s =>
    let demangled := if e.maybeMangled then demangle s else none
    let unsanitized := demangled.getD s
    if unsanitized = "" then "" else transcode unsanitized

/-- `encode_file_name`, shared by `source` and `u8_source`. -/
def encodeFileName (transcode : String → String)
    (fileName : Option String) : String :=
  match fileName with
  | none => ""
  | some f => if f = "" then "" else transcode f

/-- `logical_stacktrace_entry::source` (and, with the utf-8 sanitizer for
`transcode`, `u8_source`): builds a `source_location` from the stored file
name and line number. -/
def LogicalStacktraceEntry.sourceLocation (transcode : String → String)
    (e : LogicalStacktraceEntry) : SourceLocation :=
  { fileName := encodeFileName transcode e.fileName
    lineNumber := e.lineNumber }

/-- The bare entry emitted by `callback_state::on_failure`:
`{{}, entry, false, false, nullptr, nullptr, 0, 0, nullptr}`. -/
def bareEntry (entry : Nat) : LogicalStacktraceEntry :=
  { physical := entry, isInline := false, maybeMangled := false,
    symbol := none, fileName := none, lineNumber := 0, columnNumber := 0 }

/-- The entry submitted for one DIE by `resolve_from_dfs_die_stack`:
`{{}, cb_state.entry, is_inline, function_name ? maybe_mangled : false,
function_name, source_location ? ...file_name : nullptr, ...line : 0,
...column : 0, shared_from_this()}`. -/
def dfsEntry (entry : Nat) (d : Die) (loc : Option SrcLoc) :
    LogicalStacktraceEntry :=
  { physical := entry
    isInline := isInlineFunctionDie d
    maybeMangled := match d.funcName with
      | some (_, mm) => mm
      | none => false
    symbol := d.funcName.map Prod.fst
    fileName := loc.map SrcLoc.fileName
    lineNumber := match loc with
      | some l => l.lineNumber
      | none => 0
    columnNumber := match loc with
      | some l => l.columnNumber
      | none => 0 }

/-- `resolver::impl::resolve_from_dfs_die_stack`: pop the DFS stack; for
every function DIE containing the address submit an entry, stop once the
sink reports "done" or right after the first non-inline function; outer
frames take their source location from the inner frame's `call_*`
attributes.  `stack` is innermost-first, `loc` is the incoming
`get_most_inline_source_location` result, `count` the number of entries
already handed to the sink. -/
def resolve_from_dfs_die_stack (entry : Nat) (sink : Nat → Bool) :
    List Die → Option SrcLoc → Nat → List LogicalStacktraceEntry
  | [], _, _ => []
  | d :: rest, loc, count =>
    if isFunctionDie d && d.hasAddr then
      dfsEntry entry d loc ::
        (if sink count then []
         else if isInlineFunctionDie d then
           resolve_from_dfs_die_stack entry sink rest d.callLoc (count + 1)
         else [])
    else resolve_from_dfs_die_stack entry sink rest loc count

/-- What the resolver can observe about the module found for an address:
the compilation unit covering it (`find_compilation_unit`), given as its
DIE tree together with the `get_most_inline_source_location` result at the
biased address, and the `dwfl_module_addrinfo` symbol-table name. -/
structure ModuleEnv where
  cu : Option (DieTree × Option SrcLoc)
  symtabName : Option String

/-- The environment one `resolver::impl::resolve` call runs in:
whether the dwfl session was created (`is_initialized`), the
`dwfl_addrmodule` result of the first `try_resolve_in_existing_modules`,
and its result after `report_mappings` re-reported the address space. -/
structure ResolveEnv where
  initialized : Bool
  moduleFirst : Option ModuleEnv
  moduleAfterReport : Option ModuleEnv

/-- `resolver::impl::resolve_in_symbol_table`: emit a name-only entry
(`{{}, entry, false, true, symbol_name, nullptr, 0, 0, ...}`) when the
symbol table has a name for the address, else fall back to the bare
entry. -/
def resolve_in_symbol_table (entry : Nat) (m : ModuleEnv) :
    List LogicalStacktraceEntry :=
  match m.symtabName with
  | some name =>
    [{ physical := entry, isInline := false, maybeMangled := true,
       symbol := some name, fileName := none, lineNumber := 0,
       columnNumber := 0 }]
  | none => [bareEntry entry]

/-- `resolver::impl::resolve_in_module`: find the compilation unit, DFS it
for the address, and dispatch to the DIE-stack walk or the symbol-table
fallback. -/
def resolve_in_module (entry : Nat) (sink : Nat → Bool) (m : ModuleEnv) :
    List LogicalStacktraceEntry :=
  match m.cu with
  | none => resolve_in_symbol_table entry m
  | some (tree, loc) =>
    match dfsFindPath tree with
    | none => resolve_in_symbol_table entry m
    | some stack => resolve_from_dfs_die_stack entry sink stack loc 0

/-- `resolver::impl::resolve`: bare entry when the session never
initialized; otherwise resolve in the module found for the address, after
re-reporting the address space if the first lookup found none; bare entry
when both lookups fail.  (`callback_state::on_failure` emits the bare entry
only when nothing was issued yet; on each path reaching it nothing was.) -/
def resolve (entry : Nat) (env : ResolveEnv) (sink : Nat → Bool) :
    List LogicalStacktraceEntry :=
  if !env.initialized then [bareEntry entry]
  else
    match env.moduleFirst with
    | some m => resolve_in_module entry sink m
    | none =>
      match env.moduleAfterReport with
      | some m => resolve_in_module entry sink m
      | none => [bareEntry entry]

/-- The innermost-first chain of DIEs for which `resolve_from_dfs_die_stack`
submits an entry when the sink never reports "done": the function DIEs of
the stack containing the address, up to and including the first non-inline
one. -/
def emittedDies : List Die → List Die
  | [] => []
  | d :: rest =>
    if isFunctionDie d && d.hasAddr then
      if isInlineFunctionDie d then d :: emittedDies rest else [d]
    else emittedDies rest

/-- A `ModuleEnv` offering no usable debug information: no compilation
unit covers the address (or the DFS finds no function DIE there), and the
symbol table has no name for it. -/
def moduleHasNoInfo (m : ModuleEnv) : Bool :=
  (match m.cu with
   | none => true
   | some (tree, _) => (dfsFindPath tree).isNone) && m.symtabName.isNone

/-- An environment in which `resolve` can apply no debug information at
all: the session failed to initialize, or no module was found for the
address even after re-reporting, or the module found offers no usable
information. -/
def envHasNoInfo (env : ResolveEnv) : Bool :=
  !env.initialized ||
    (match env.moduleFirst with
     | some m => moduleHasNoInfo m
     | none =>
       match env.moduleAfterReport with
       | some m => moduleHasNoInfo m
       | none => true)

/-! ## Remote module map model (`windows/module_map.cpp`) -/

/-- One back-off action of `wait_before_retry`. -/
inductive BackoffAction where
  | yieldThread
  | sleepMs (ms : Nat)
deriving DecidableEq, Repr

/-- `wait_before_retry`: yield on the first retry, sleep 1 ms on the
second, `wait_step` (10 ms) on the third, then
`min(wait_step * (retry_idx - 2), max_wait)` with `max_wait` 100 ms. -/
def wait_before_retry (retryIdx : Nat) : BackoffAction :=
  match retryIdx with
  | 0 => BackoffAction.yieldThread
  | 1 => BackoffAction.sleepMs 1
  | 2 => BackoffAction.sleepMs 10
  | _ => BackoffAction.sleepMs (min (10 * (retryIdx - 2)) 100)

/-- The record `remote_module_map::lookup` returns. -/
structure ModuleRecord where
  baseOffset : Nat
  fileName : String
deriving DecidableEq, Repr

/-- The possible outcomes of one iteration of the `remote_module_map::lookup`
loop body, before its control-flow decision: `enumFail` is
`get_remote_module_handles` returning nothing, `infoFail` is
`get_basic_module_info` failing for some enumerated module, `notFound` is a
successful enumeration in which no module's range contains the address,
`fileNameFail` is a failed `get_module_file_name` on the found module, and
`found` is a fully successful lookup. -/
inductive AttemptOutcome where
  | enumFail
  | infoFail
  | notFound
  | fileNameFail
  | found (record : ModuleRecord)
deriving DecidableEq, Repr

/-- The outcomes that make the loop wait and retry (`continue` after
`wait_before_retry`). -/
def attemptRetries : AttemptOutcome → Bool
  | .enumFail => true
  | .infoFail => true
  | .fileNameFail => true
  | .notFound => false
  | .found _ => false

/-- `constexpr auto lookup_retry_count = retry_count_t{10}`. -/
def lookup_retry_count : Nat := 10

/-- The `for (retry_idx = 0; retry_idx != lookup_retry_count; ++retry_idx)`
loop of `remote_module_map::lookup`, iterated over the remaining retry
indices.  Returns the lookup result, the number of attempts performed and
the back-off actions taken (one after every retried attempt, the last
included).  A `notFound` outcome breaks out of the loop immediately. -/
def remoteLookupLoop (env : Nat → AttemptOutcome) :
    List Nat → Option ModuleRecord × Nat × List BackoffAction
  | [] => (none, 0, [])
  | idx :: rest =>
    match env idx with
    | .found record => (some record, 1, [])
    | .notFound => (none, 1, [])
    | _ =>
      let (result, attempts, waits) := remoteLookupLoop env rest
      (result, attempts + 1, wait_before_retry idx :: waits)

/-- `remote_module_map::lookup`, with the interaction of each attempt with
the foreign process abstracted into `env` (the outcome of the attempt at
each retry index). -/
def remote_module_map_lookup (env : Nat → AttemptOutcome) :
    Option ModuleRecord × Nat × List BackoffAction :=
  remoteLookupLoop env (List.range lookup_retry_count)

/-! ## Address formatting model

`format_entry` in `stacktrace_entry.cpp` (the iostream inserters) and
`detail::stacktrace_entry_fmt_string` in `stacktrace_entry.hpp` (the
fmt/std formatters).  `ptrBits` is
`std::numeric_limits<std::uintptr_t>::digits` (32 or 64); the field width
is `digits / 4 + 2`. -/

/-- One lowercase hexadecimal digit (`0`-`9`, `a`-`f`). -/
def hexDigitChar (n : Nat) : Char :=
  if n < 10 then Char.ofNat (48 + n) else Char.ofNat (87 + n)

/-- Numeric value of a lowercase hexadecimal digit. -/
def hexDigitVal (c : Char) : Nat :=
  if 97 ≤ c.toNat then c.toNat - 87 else c.toNat - 48

/-- Digit production for the hexadecimal presentation (structural on a
fuel argument so that it evaluates by kernel reduction): prepend the
digits of `n`, most significant first, to `ds`. -/
def hexCharsCore : Nat → Nat → List Char → List Char
  | 0, _, ds => ds
  | fuel + 1, n, ds =>
    let ds' := hexDigitChar (n % 16) :: ds
    if n / 16 = 0 then ds' else hexCharsCore fuel (n / 16) ds'

/-- Hexadecimal digits of `n`, most significant first; `"0"` for 0 (what
both `%x`-style printing and fmt's `x` presentation produce). -/
def hexDigits (n : Nat) : List Char :=
  hexCharsCore (n + 1) n []

/-- Zero-fill a digit string on the left to width `w`. -/
def padZeros (w : Nat) (l : List Char) : List Char :=
  List.replicate (w - l.length) '0' ++ l

/-- `detail::stacktrace_entry_fmt_string` applied to a value: the fmt/std
formatters print with `"{:#010x}"` (32-bit) / `"{:#018x}"` (64-bit), i.e.
`0x` followed by the value's lowercase hexadecimal digits zero-filled to
the pointer width — for every value, zero included. -/
def stacktrace_entry_fmt (ptrBits v : Nat) : String :=
  String.mk ('0' :: 'x' :: padZeros (ptrBits / 4) (hexDigits v))

/-- `format_entry` (iostream): `std::hex << std::showbase << std::internal
<< std::setw(digits / 4 + 2) << std::setfill('0')`.  `showbase` prefixes
`0x` only to a **non-zero** hex conversion (it follows `printf`'s `#`
flag); with `internal` adjustment the `'0'` fill is inserted after the
base prefix, or before the digits when there is none, so the zero value
prints as `digits / 4 + 2` zeros with no `0x`. -/
def format_entry (ptrBits v : Nat) : String :=
  if v = 0 then String.mk (List.replicate (ptrBits / 4 + 2) '0')
  else String.mk ('0' :: 'x' :: padZeros (ptrBits / 4) (hexDigits v))

/-- Value of a digit string read as a hexadecimal number (most significant
digit first). -/
def hexCharsVal (l : List Char) : Nat :=
  l.foldl (fun acc c => acc * 16 + hexDigitVal c) 0

/-- Read formatted text back as a hexadecimal number, skipping a `0x`
prefix when present. -/
def read_back_hex (s : String) : Nat :=
  match s.data with
  | '0' :: 'x' :: rest => hexCharsVal rest
  | l => hexCharsVal l

/-- A lowercase hexadecimal digit character. -/
def isLowerHexDigit (c : Char) : Bool :=
  ('0' ≤ c && c ≤ '9') || ('a' ≤ c && c ≤ 'f')

/-! ## Concrete inputs used by witnesses -/

/-- A DIE for an inlined subroutine containing the resolved address. -/
def exampleInlineDie : Die :=
  { tag := DieTag.inlinedSubroutine, hasAddr := true,
    funcName := some ("h", true),
    callLoc := some ⟨"a.cpp", 7, 2⟩ }

/-- A DIE for the enclosing physical subprogram. -/
def exampleSubprogramDie : Die :=
  { tag := DieTag.subprogram, hasAddr := true,
    funcName := some ("f", true), callLoc := none }

/-- The compilation-unit DIE (not a function). -/
def exampleCuDie : Die :=
  { tag := DieTag.otherTag, hasAddr := true, funcName := none,
    callLoc := none }

/-- A compilation unit in which the address lies in an inlined subroutine
nested in a subprogram. -/
def exampleCuTree : DieTree :=
  DieTree.node exampleCuDie
    [DieTree.node exampleSubprogramDie [DieTree.node exampleInlineDie []]]

/-- A resolver environment whose first module lookup succeeds with the
example compilation unit. -/
def exampleResolveEnv : ResolveEnv :=
  { initialized := true
    moduleFirst := some
      { cu := some (exampleCuTree, some ⟨"b.cpp", 11, 4⟩),
        symtabName := some "f" }
    moduleAfterReport := none }

end Hindsight

namespace Hindsight

/-! ### Characterization lemmas for the capture loops -/

theorem captureLoopPosix_neverDone (frames : List UnwindFrame) :
    ∀ skip count, captureLoopPosix neverDone frames skip count =
      ((frames.filter frameEligible).drop skip).map reportingAddress := by
  induction frames with
  | nil => intro skip count; simp [captureLoopPosix]
  | cons f rest ih =>
    intro skip count
    by_cases hf : frameEligible f
    · cases skip with
      | zero => simp [captureLoopPosix, hf, neverDone, ih]
      | succ k => simp [captureLoopPosix, hf, ih]
    · simp [captureLoopPosix, hf, ih]

theorem captureLoopPosix_take (sink : Nat → Bool) (frames : List UnwindFrame) :
    ∀ skip count, ∃ n, captureLoopPosix sink frames skip count =
      (captureLoopPosix neverDone frames skip count).take n := by
  induction frames with
  | nil => intro skip count; exact ⟨0, by simp [captureLoopPosix]⟩
  | cons f rest ih =>
    intro skip count
    by_cases hf : frameEligible f
    · cases skip with
      | zero =>
        by_cases hs : sink count
        · exact ⟨1, by simp [captureLoopPosix, hf, hs, neverDone]⟩
        · obtain ⟨n, hn⟩ := ih 0 (count + 1)
          refine ⟨n + 1, ?_⟩
          simp [captureLoopPosix, hf, hs, neverDone, hn, captureLoopPosix_neverDone]
      | succ k => simpa [captureLoopPosix, hf] using ih k count
    · simpa [captureLoopPosix, hf] using ih skip count

theorem captureLoopWindows_neverDone (ips : List Nat) :
    ∀ skip count, captureLoopWindows neverDone ips skip count =
      ((ips.filter (fun ip => ip != 0)).drop skip).map (fun ip => ip - 1) := by
  induction ips with
  | nil => intro skip count; simp [captureLoopWindows]
  | cons ip rest ih =>
    intro skip count
    by_cases hip : (ip != 0) = true
    · cases skip with
      | zero => simp [captureLoopWindows, hip, neverDone, ih]
      | succ k => simp [captureLoopWindows, hip, ih]
    · simp [captureLoopWindows, hip, ih]

theorem captureLoopPosix_mem (sink : Nat → Bool)
    (frames : List UnwindFrame) : ∀ skip count a,
      a ∈ captureLoopPosix sink frames skip count →
        ∃ f ∈ frames, frameEligible f = true ∧ a = reportingAddress f := by
  induction frames with
  | nil => intro skip count a ha; simp [captureLoopPosix] at ha
  | cons f rest ih =>
    intro skip count a ha
    simp only [captureLoopPosix] at ha
    by_cases hf : frameEligible f
    · rw [if_pos hf] at ha
      cases skip with
      | zero =>
        rcases List.mem_cons.mp ha with rfl | ha'
        · exact ⟨f, List.mem_cons_self f rest, hf, rfl⟩
        · by_cases hs : sink count
          · simp [hs] at ha'
          · obtain ⟨g, hg, hge, hga⟩ := ih 0 (count + 1) a
              (by simpa [hs] using ha')
            exact ⟨g, List.mem_cons_of_mem f hg, hge, hga⟩
      | succ k =>
        obtain ⟨g, hg, hge, hga⟩ := ih k count a ha
        exact ⟨g, List.mem_cons_of_mem f hg, hge, hga⟩
    · rw [if_neg hf] at ha
      obtain ⟨g, hg, hge, hga⟩ := ih skip count a ha
      exact ⟨g, List.mem_cons_of_mem f hg, hge, hga⟩

theorem captureLoopWindows_mem (sink : Nat → Bool) (ips : List Nat) :
    ∀ skip count a, a ∈ captureLoopWindows sink ips skip count →
      ∃ ip ∈ ips, ip ≠ 0 ∧ a = ip - 1 := by
  induction ips with
  | nil => intro skip count a ha; simp [captureLoopWindows] at ha
  | cons ip rest ih =>
    intro skip count a ha
    simp only [captureLoopWindows] at ha
    by_cases hip : (ip != 0) = true
    · rw [if_pos hip] at ha
      cases skip with
      | zero =>
        rcases List.mem_cons.mp ha with rfl | ha'
        · exact ⟨ip, List.mem_cons_self ip rest, by simpa using hip, rfl⟩
        · by_cases hs : sink count
          · simp [hs] at ha'
          · obtain ⟨q, hq, hqe, hqa⟩ := ih 0 (count + 1) a
              (by simpa [hs] using ha')
            exact ⟨q, List.mem_cons_of_mem ip hq, hqe, hqa⟩
      | succ k =>
        obtain ⟨q, hq, hqe, hqa⟩ := ih k count a ha
        exact ⟨q, List.mem_cons_of_mem ip hq, hqe, hqa⟩
    · rw [if_neg hip] at ha
      obtain ⟨q, hq, hqe, hqa⟩ := ih skip count a ha
      exact ⟨q, List.mem_cons_of_mem ip hq, hqe, hqa⟩

/-! ### Helper lemmas for the resolver -/

theorem resolve_in_symbol_table_none (entry : Nat) (m : ModuleEnv)
    (h : m.symtabName = none) :
    resolve_in_symbol_table entry m = [bareEntry entry] := by
  unfold resolve_in_symbol_table
  rw [h]

theorem resolve_in_module_noinfo (entry : Nat) (sink : Nat → Bool)
    (m : ModuleEnv) (h : moduleHasNoInfo m = true) :
    resolve_in_module entry sink m = [bareEntry entry] := by
  unfold moduleHasNoInfo at h
  rw [Bool.and_eq_true] at h
  obtain ⟨hcu, hsym⟩ := h
  have hsym' : m.symtabName = none := Option.isNone_iff_eq_none.mp hsym
  unfold resolve_in_module
  rcases hmcu : m.cu with _ | ⟨tree, loc⟩
  · exact resolve_in_symbol_table_none entry m hsym'
  · rw [hmcu] at hcu
    have hcu' : (dfsFindPath tree).isNone = true := hcu
    have hdfs : dfsFindPath tree = none := Option.isNone_iff_eq_none.mp hcu'
    show (match dfsFindPath tree with
      | none => resolve_in_symbol_table entry m
      | some stack => resolve_from_dfs_die_stack entry sink stack loc 0) =
        [bareEntry entry]
    rw [hdfs]
    exact resolve_in_symbol_table_none entry m hsym'

theorem resolve_from_dfs_physical (entry : Nat) (sink : Nat → Bool)
    (stack : List Die) : ∀ loc count e,
      e ∈ resolve_from_dfs_die_stack entry sink stack loc count →
        e.physical = entry := by
  induction stack with
  | nil => intro loc count e he; simp [resolve_from_dfs_die_stack] at he
  | cons d rest ih =>
    intro loc count e he
    by_cases hd : (isFunctionDie d && d.hasAddr) = true
    · rw [resolve_from_dfs_die_stack, if_pos hd] at he
      rcases List.mem_cons.mp he with h | h
      · subst h; rfl
      · by_cases hs : sink count
        · simp [hs] at h
        · by_cases hinl : isInlineFunctionDie d = true
          · exact ih d.callLoc (count + 1) e (by simpa [hs, hinl] using h)
          · simp [hs, hinl] at h
    · rw [resolve_from_dfs_die_stack, if_neg hd] at he
      exact ih loc count e he

theorem resolve_in_symbol_table_physical (entry : Nat) (m : ModuleEnv) :
    ∀ e ∈ resolve_in_symbol_table entry m, e.physical = entry := by
  intro e he
  unfold resolve_in_symbol_table at he
  split at he <;> simp [bareEntry] at he <;> simp [he]

theorem resolve_in_module_physical (entry : Nat) (sink : Nat → Bool)
    (m : ModuleEnv) : ∀ e ∈ resolve_in_module entry sink m,
      e.physical = entry := by
  intro e he
  unfold resolve_in_module at he
  split at he
  · exact resolve_in_symbol_table_physical entry m e he
  · split at he
    · exact resolve_in_symbol_table_physical entry m e he
    · exact resolve_from_dfs_physical entry sink _ _ 0 e he

theorem resolve_from_dfs_neverDone_proj (entry : Nat) (stack : List Die) :
    ∀ loc count,
      (resolve_from_dfs_die_stack entry neverDone stack loc count).map
          (fun e => (e.symbol, e.isInline)) =
        (emittedDies stack).map
          (fun d => (d.funcName.map Prod.fst, isInlineFunctionDie d)) := by
  induction stack with
  | nil => intro loc count; simp [resolve_from_dfs_die_stack, emittedDies]
  | cons d rest ih =>
    intro loc count
    by_cases hd : (isFunctionDie d && d.hasAddr) = true
    · by_cases hinl : isInlineFunctionDie d = true
      · rw [resolve_from_dfs_die_stack, if_pos hd]
        rw [emittedDies, if_pos hd, if_pos hinl]
        simp [neverDone, hinl, dfsEntry, ih]
      · rw [resolve_from_dfs_die_stack, if_pos hd]
        rw [emittedDies, if_pos hd, if_neg hinl]
        simp [neverDone, hinl, dfsEntry]
    · rw [resolve_from_dfs_die_stack, if_neg hd]
      rw [emittedDies, if_neg hd]
      exact ih loc count

theorem emittedDies_cons_inline (d : Die) (rest : List Die)
    (h1 : (isFunctionDie d && d.hasAddr) = true)
    (h2 : isInlineFunctionDie d = true) :
    emittedDies (d :: rest) = d :: emittedDies rest := by
  simp [emittedDies, h1, h2]

theorem emittedDies_cons_physical (d : Die) (rest : List Die)
    (h1 : (isFunctionDie d && d.hasAddr) = true)
    (h2 : isInlineFunctionDie d = false) :
    emittedDies (d :: rest) = [d] := by
  simp [emittedDies, h1, h2]

theorem emittedDies_cons_skip (d : Die) (rest : List Die)
    (h1 : (isFunctionDie d && d.hasAddr) = false) :
    emittedDies (d :: rest) = emittedDies rest := by
  simp [emittedDies, h1]

theorem emittedDies_flags (stack : List Die)
    (h : ∃ d ∈ stack, isFunctionDie d = true ∧ d.hasAddr = true ∧
      isInlineFunctionDie d = false) :
    (emittedDies stack).map isInlineFunctionDie =
      List.replicate ((emittedDies stack).length - 1) true ++ [false] := by
  induction stack with
  | nil => simp at h
  | cons d rest ih =>
    cases hd : (isFunctionDie d && d.hasAddr) with
    | false =>
      have hrest : ∃ d' ∈ rest, isFunctionDie d' = true ∧
          d'.hasAddr = true ∧ isInlineFunctionDie d' = false := by
        rcases h with ⟨d', hmem, hfn, haddr, hninl⟩
        rcases List.mem_cons.mp hmem with rfl | hmem'
        · rw [hfn, haddr] at hd; cases hd
        · exact ⟨d', hmem', hfn, haddr, hninl⟩
      rw [emittedDies_cons_skip d rest hd]
      exact ih hrest
    | true =>
      cases hinl : isInlineFunctionDie d with
      | false =>
        rw [emittedDies_cons_physical d rest hd hinl]
        simp [hinl]
      | true =>
        have hrest : ∃ d' ∈ rest, isFunctionDie d' = true ∧
            d'.hasAddr = true ∧ isInlineFunctionDie d' = false := by
          rcases h with ⟨d', hmem, hfn, haddr, hninl⟩
          rcases List.mem_cons.mp hmem with rfl | hmem'
          · rw [hinl] at hninl; cases hninl
          · exact ⟨d', hmem', hfn, haddr, hninl⟩
        have ihr := ih hrest
        rw [emittedDies_cons_inline d rest hd hinl]
        have hlen : 1 ≤ (emittedDies rest).length := by
          rcases hemt : emittedDies rest with _ | ⟨x, xs⟩
        -- an empty tail contradicts the induction hypothesis' shape
          · rw [hemt] at ihr; simp at ihr
          · simp
        have harith : (emittedDies rest).length + 1 - 1 =
            ((emittedDies rest).length - 1) + 1 := by omega
        simp only [List.map_cons, List.length_cons, hinl, harith,
          List.replicate_succ, ihr]
        simp

/-! ### Helper lemmas for the remote module map -/

theorem remoteLookupLoop_all_retry (env : Nat → AttemptOutcome) :
    ∀ idxs : List Nat, (∀ i ∈ idxs, attemptRetries (env i) = true) →
      remoteLookupLoop env idxs =
        (none, idxs.length, idxs.map wait_before_retry) := by
  intro idxs
  induction idxs with
  | nil => intro _; rfl
  | cons idx rest ih =>
    intro h
    have hidx := h idx (List.mem_cons_self idx rest)
    have hrest := ih fun i hi => h i (List.mem_cons_of_mem idx hi)
    cases henv : env idx with
    | found record => rw [henv] at hidx; simp [attemptRetries] at hidx
    | notFound => rw [henv] at hidx; simp [attemptRetries] at hidx
    | enumFail => simp [remoteLookupLoop, henv, hrest]
    | infoFail => simp [remoteLookupLoop, henv, hrest]
    | fileNameFail => simp [remoteLookupLoop, henv, hrest]

/-! ### Helper lemmas for the hexadecimal display -/

theorem hexDigitVal_hexDigitChar (m : Nat) (h : m < 16) :
    hexDigitVal (hexDigitChar m) = m := by
  interval_cases m <;> decide

theorem isLowerHexDigit_hexDigitChar (m : Nat) (h : m < 16) :
    isLowerHexDigit (hexDigitChar m) = true := by
  interval_cases m <;> decide

theorem hexFoldl_eq (l : List Char) :
    ∀ acc, l.foldl (fun acc c => acc * 16 + hexDigitVal c) acc =
      acc * 16 ^ l.length + hexCharsVal l := by
  induction l with
  | nil => intro acc; simp [hexCharsVal]
  | cons c' l' ih =>
    intro acc
    have h1 := ih (acc * 16 + hexDigitVal c')
    have h2 := ih (hexDigitVal c')
    have h0 : hexCharsVal (c' :: l') =
        hexDigitVal c' * 16 ^ l'.length + hexCharsVal l' := by
      unfold hexCharsVal
      simpa using h2
    simp only [List.foldl_cons, List.length_cons] at h1 ⊢
    rw [h1, h0]
    ring

theorem hexCharsVal_replicate_zero (k : Nat) (l : List Char) :
    hexCharsVal (List.replicate k '0' ++ l) = hexCharsVal l := by
  induction k with
  | zero => simp
  | succ k ih =>
    unfold hexCharsVal at ih ⊢
    simpa [List.replicate_succ, hexDigitVal] using ih

theorem hexCharsVal_padZeros (w : Nat) (l : List Char) :
    hexCharsVal (padZeros w l) = hexCharsVal l :=
  hexCharsVal_replicate_zero (w - l.length) l

theorem hexCharsCore_val :
    ∀ fuel n ds, n < 16 ^ fuel →
      hexCharsVal (hexCharsCore fuel n ds) =
        n * 16 ^ ds.length + hexCharsVal ds := by
  intro fuel
  induction fuel with
  | zero =>
    intro n ds h
    have : n = 0 := by simpa using h
    simp [this, hexCharsCore]
  | succ fuel ih =>
    intro n ds h
    have hmod : hexCharsVal (hexDigitChar (n % 16) :: ds) =
        (n % 16) * 16 ^ ds.length + hexCharsVal ds := by
      have hfold : hexCharsVal (hexDigitChar (n % 16) :: ds) =
          ds.foldl (fun acc c => acc * 16 + hexDigitVal c)
            (0 * 16 + hexDigitVal (hexDigitChar (n % 16))) := rfl
      rw [hfold, hexFoldl_eq ds,
        hexDigitVal_hexDigitChar _ (Nat.mod_lt _ (by norm_num))]
      ring
    by_cases hdiv : n / 16 = 0
    · have hn : n % 16 = n := by omega
      rw [hexCharsCore]
      simp only [hdiv, if_pos rfl, if_true]
      rw [hmod, hn]
    · rw [hexCharsCore]
      simp only [hdiv, if_false, ite_false]
      have hlt : n / 16 < 16 ^ fuel := by
        rw [Nat.div_lt_iff_lt_mul (by norm_num : 0 < 16)]
        calc n < 16 ^ (fuel + 1) := h
        _ = 16 ^ fuel * 16 := by rw [pow_succ]
      rw [ih (n / 16) (hexDigitChar (n % 16) :: ds) hlt, hmod]
      have hn : 16 * (n / 16) + n % 16 = n := Nat.div_add_mod n 16
      simp only [List.length_cons, pow_succ]
      calc (n / 16) * (16 ^ ds.length * 16) +
            ((n % 16) * 16 ^ ds.length + hexCharsVal ds)
          = (16 * (n / 16) + n % 16) * 16 ^ ds.length + hexCharsVal ds := by
            ring
      _ = n * 16 ^ ds.length + hexCharsVal ds := by rw [hn]

theorem lt_16_pow_succ_self (n : Nat) : n < 16 ^ (n + 1) := by
  calc n < 16 ^ n := Nat.lt_pow_self (by norm_num) n
  _ ≤ 16 ^ (n + 1) := Nat.pow_le_pow_right (by norm_num) (by omega)

theorem hexCharsVal_hexDigits (n : Nat) : hexCharsVal (hexDigits n) = n := by
  unfold hexDigits
  rw [hexCharsCore_val (n + 1) n [] (lt_16_pow_succ_self n)]
  simp [hexCharsVal]

theorem hexCharsCore_length :
    ∀ fuel n ds k, n < 16 ^ k → 1 ≤ k →
      (hexCharsCore fuel n ds).length ≤ k + ds.length := by
  intro fuel
  induction fuel with
  | zero =>
    intro n ds k _ _
    simp only [hexCharsCore]
    omega
  | succ fuel ih =>
    intro n ds k h hk
    by_cases hdiv : n / 16 = 0
    · rw [hexCharsCore]
      simp only [hdiv, if_pos rfl, if_true, List.length_cons]
      omega
    · rw [hexCharsCore]
      simp only [hdiv, if_false, ite_false]
      have h16 : 16 ≤ n := by
        by_contra hc
        exact hdiv (Nat.div_eq_of_lt (by omega))
      have hk2 : 2 ≤ k := by
        by_contra hc
        have : k = 1 := by omega
        rw [this] at h
        omega
      have hlt : n / 16 < 16 ^ (k - 1) := by
        rw [Nat.div_lt_iff_lt_mul (by norm_num : 0 < 16)]
        calc n < 16 ^ k := h
        _ = 16 ^ (k - 1) * 16 := by
            rw [← pow_succ]
            congr 1
            omega
      have := ih (n / 16) (hexDigitChar (n % 16) :: ds) (k - 1) hlt (by omega)
      simp only [List.length_cons] at this
      omega

theorem hexDigits_length_le (n k : Nat) (h : n < 16 ^ k) (hk : 1 ≤ k) :
    (hexDigits n).length ≤ k := by
  have := hexCharsCore_length (n + 1) n [] k h hk
  simpa [hexDigits] using this

theorem padZeros_length (w : Nat) (l : List Char) (h : l.length ≤ w) :
    (padZeros w l).length = w := by
  simp [padZeros]
  omega

theorem hexCharsCore_all_hex :
    ∀ fuel n ds, ds.all isLowerHexDigit = true →
      (hexCharsCore fuel n ds).all isLowerHexDigit = true := by
  intro fuel
  induction fuel with
  | zero => intro n ds h; simpa [hexCharsCore] using h
  | succ fuel ih =>
    intro n ds h
    have hcons : (hexDigitChar (n % 16) :: ds).all isLowerHexDigit = true := by
      simp [List.all_cons, h,
        isLowerHexDigit_hexDigitChar (n % 16) (Nat.mod_lt n (by norm_num))]
    by_cases hdiv : n / 16 = 0
    · rw [hexCharsCore]
      simp only [hdiv, if_pos rfl, if_true]
      exact hcons
    · rw [hexCharsCore]
      simp only [hdiv, if_false, ite_false]
      exact ih (n / 16) _ hcons

theorem padZeros_all_hex (w : Nat) (l : List Char)
    (h : l.all isLowerHexDigit = true) :
    (padZeros w l).all isLowerHexDigit = true := by
  have h0 : isLowerHexDigit '0' = true := by decide
  simp only [padZeros, List.all_append, Bool.and_eq_true]
  refine ⟨?_, h⟩
  simp [h0]

/-! ## Claim theorems -/

/-- C2 counterexample: a Windows exception-delivery context whose faulting
instruction pointer is 5 is emitted as 4 = 5 - 1, not verbatim: the
Windows walker subtracts one unconditionally — it performs no
signal/exception-frame test at all — so the claim's verbatim clause fails
on exception-delivery frames there. -/
theorem windows_exception_frame_not_emitted_verbatim :
    capture_windows_annotated [⟨5, true⟩] 0 neverDone = [4] ∧
    (4 : Nat) ≠ 5 := by
  constructor
  · rfl
  · decide

/-- C2 amended: on the POSIX walker every emitted address is the frame's
instruction pointer minus one, except when `unw_is_signal_frame` reported
the frame as a signal frame, in which case the instruction pointer is
emitted verbatim (the output is the skipped suffix of the eligible frames
mapped through `reportingAddress`, truncated by whatever sink is
supplied); the Windows walker performs no signal/exception-frame test and
emits every frame's instruction pointer minus one — exception-delivery
frames included: its output is entirely independent of the
exception-delivery attribute. -/
theorem unwinder_reporting_address_rule (frames : List UnwindFrame)
    (wframes : List WindowsContextFrame) (skip : Nat) (sink : Nat → Bool) :
    capture_stacktrace_from_mutable_context true frames skip neverDone =
      ((frames.filter frameEligible).drop skip).map reportingAddress ∧
    (∃ n, capture_stacktrace_from_mutable_context true frames skip sink =
      (((frames.filter frameEligible).drop skip).map reportingAddress).take
        n) ∧
    capture_windows_annotated wframes skip neverDone =
      (((processedContexts (wframes.map WindowsContextFrame.ip)).filter
        (fun ip => ip != 0)).drop skip).map (fun ip => ip - 1) ∧
    capture_windows_annotated wframes skip sink =
      capture_windows_annotated
        (wframes.map (fun f => WindowsContextFrame.mk f.ip false)) skip
        sink := by
  refine ⟨?_, ?_, ?_, ?_⟩
  · simp [capture_stacktrace_from_mutable_context, captureLoopPosix_neverDone]
  · obtain ⟨n, hn⟩ := captureLoopPosix_take sink frames skip 0
    exact ⟨n, by
      simp [capture_stacktrace_from_mutable_context, hn,
        captureLoopPosix_neverDone]⟩
  · simp [capture_windows_annotated, capture_from_mutable_context_windows,
      captureLoopWindows_neverDone]
  · have hfun : (WindowsContextFrame.ip ∘
        fun f => WindowsContextFrame.mk f.ip false) =
          WindowsContextFrame.ip :=
      funext fun f => rfl
    simp [capture_windows_annotated, List.map_map, hfun]

/-- C5: with an unbounded sink, capturing with `skip = k` yields exactly
the tail of length `len - k` of the capture with `skip = 0` from the same
context, on both the POSIX and the Windows walkers. -/
theorem capture_skip_yields_tail (frames : List UnwindFrame)
    (ips : List Nat) (k j : Nat)
    (_hk : k ≤
      (capture_stacktrace_from_context true frames 0 neverDone).length)
    (_hj : j ≤ (capture_from_context_windows ips 0 neverDone).length) :
    capture_stacktrace_from_context true frames k neverDone =
      (capture_stacktrace_from_context true frames 0 neverDone).drop k ∧
    (capture_stacktrace_from_context true frames k neverDone).length =
      (capture_stacktrace_from_context true frames 0 neverDone).length - k ∧
    capture_from_context_windows ips j neverDone =
      (capture_from_context_windows ips 0 neverDone).drop j ∧
    (capture_from_context_windows ips j neverDone).length =
      (capture_from_context_windows ips 0 neverDone).length - j := by
  have hpos : ∀ s, capture_stacktrace_from_context true frames s neverDone =
      ((frames.filter frameEligible).drop s).map reportingAddress := by
    intro s
    simp [capture_stacktrace_from_context,
      capture_stacktrace_from_mutable_context, captureLoopPosix_neverDone]
  have hwin : ∀ s, capture_from_context_windows ips s neverDone =
      (((processedContexts ips).filter (fun ip => ip != 0)).drop s).map
        (fun ip => ip - 1) := by
    intro s
    simp [capture_from_context_windows, capture_from_mutable_context_windows,
      captureLoopWindows_neverDone]
  refine ⟨?_, ?_, ?_, ?_⟩
  · rw [hpos, hpos]
    simp [List.map_drop]
  · rw [hpos, hpos]
    simp
  · rw [hwin, hwin]
    simp [List.map_drop]
  · rw [hwin, hwin]
    simp

/-- C5 witness: a two-frame context captured with `skip = 1` yields the
one-element tail of the `skip = 0` capture. -/
theorem capture_skip_yields_tail_witness :
    1 ≤ (capture_stacktrace_from_context true
        [⟨true, 5, false⟩, ⟨true, 9, false⟩] 0 neverDone).length ∧
    1 ≤ (capture_from_context_windows [7, 3] 0 neverDone).length ∧
    (capture_stacktrace_from_context true
        [⟨true, 5, false⟩, ⟨true, 9, false⟩] 1 neverDone =
      (capture_stacktrace_from_context true
        [⟨true, 5, false⟩, ⟨true, 9, false⟩] 0 neverDone).drop 1 ∧
    (capture_stacktrace_from_context true
        [⟨true, 5, false⟩, ⟨true, 9, false⟩] 1 neverDone).length =
      (capture_stacktrace_from_context true
        [⟨true, 5, false⟩, ⟨true, 9, false⟩] 0 neverDone).length - 1 ∧
    capture_from_context_windows [7, 3] 1 neverDone =
      (capture_from_context_windows [7, 3] 0 neverDone).drop 1 ∧
    (capture_from_context_windows [7, 3] 1 neverDone).length =
      (capture_from_context_windows [7, 3] 0 neverDone).length - 1) :=
  ⟨by decide, by decide,
    capture_skip_yields_tail [⟨true, 5, false⟩, ⟨true, 9, false⟩] [7, 3] 1 1
      (by decide) (by decide)⟩

/-- C6 counterexample: the POSIX capture-from-current facade does not add
one to the caller-supplied skip count.  With a single-frame context (the
frame `unw_getcontext` captured, i.e. the facade's own frame, `ip = 5`,
not a signal frame) and `skip = 0` the facade reports that frame, whereas
a walk with the incremented skip count would report nothing. -/
theorem posix_capture_does_not_increment_skip :
    capture_stacktrace_posix true true [⟨true, 5, false⟩] 0 neverDone =
      [4] ∧
    capture_stacktrace_from_mutable_context true [⟨true, 5, false⟩] (0 + 1)
        neverDone = [] := by
  constructor <;> rfl

/-- C6 amended: the Windows capture-from-current facade increments the
caller-supplied skip count by one (through `increment_if_has_noinline`,
when the compiler supports disabling inlining of the capture entry point),
so the walk drops one more leading frame; the POSIX capture-from-current
facade forwards the skip count to the unwinder unchanged; and
capture-from-context forwards the skip count unchanged on both
platforms. -/
theorem skip_count_contract_amended (ips : List Nat)
    (frames : List UnwindFrame) (skip : Nat) (sink : Nat → Bool)
    (initOk : Bool) :
    capture_stacktrace_windows true ips skip neverDone =
      (((processedContexts ips).filter (fun ip => ip != 0)).drop
        (skip + 1)).map (fun ip => ip - 1) ∧
    capture_stacktrace_windows false ips skip sink =
      capture_from_mutable_context_windows ips skip sink ∧
    capture_stacktrace_posix true initOk frames skip sink =
      capture_stacktrace_from_mutable_context initOk frames skip sink ∧
    capture_stacktrace_from_context initOk frames skip sink =
      capture_stacktrace_from_mutable_context initOk frames skip sink ∧
    capture_from_context_windows ips skip sink =
      capture_from_mutable_context_windows ips skip sink := by
  refine ⟨?_, rfl, rfl, rfl, rfl⟩
  simp [capture_stacktrace_windows, increment_if_has_noinline,
    capture_from_mutable_context_windows, captureLoopWindows_neverDone]

/-- C8 counterexample: the walkers test the instruction pointer against
zero before subtracting one, so a non-signal frame with `ip = 1` makes
the capture pass the address zero to the sink. -/
theorem capture_can_emit_zero_address :
    capture_stacktrace_from_context true [⟨true, 1, false⟩] 0 neverDone =
      [0] := by
  rfl

/-- C8 amended: every address a capture passes to the sink is the
reporting address of a visited frame whose instruction pointer is non-zero;
the address itself is non-zero except when a non-signal frame has
instruction pointer one, in which case zero is emitted. -/
theorem capture_emitted_addresses_characterized (initOk : Bool)
    (frames : List UnwindFrame) (ips : List Nat) (skip : Nat)
    (sink : Nat → Bool) :
    (∀ a ∈ capture_stacktrace_from_mutable_context initOk frames skip sink,
      ∃ f ∈ frames, frameEligible f = true ∧ a = reportingAddress f ∧
        (a = 0 → f.isSignalFrame = false ∧ f.ip = 1)) ∧
    (∀ a ∈ capture_from_mutable_context_windows ips skip sink,
      ∃ ip ∈ processedContexts ips, ip ≠ 0 ∧ a = ip - 1 ∧
        (a = 0 → ip = 1)) := by
  constructor
  · intro a ha
    unfold capture_stacktrace_from_mutable_context at ha
    by_cases hinit : initOk
    · rw [if_pos hinit] at ha
      obtain ⟨f, hf, hfe, hfa⟩ := captureLoopPosix_mem sink frames skip 0 a ha
      refine ⟨f, hf, hfe, hfa, ?_⟩
      intro h0
      have hip : f.ip ≠ 0 := by
        have := hfe
        unfold frameEligible at this
        simp only [Bool.and_eq_true, bne_iff_ne, ne_eq] at this
        exact this.2
      cases hsig : f.isSignalFrame with
      | true =>
        rw [hfa] at h0
        unfold reportingAddress at h0
        rw [hsig] at h0
        simp at h0
        exact absurd h0 hip
      | false =>
        refine ⟨rfl, ?_⟩
        rw [hfa] at h0
        unfold reportingAddress at h0
        rw [hsig] at h0
        simp at h0
        omega
    · rw [if_neg hinit] at ha
      simp at ha
  · intro a ha
    unfold capture_from_mutable_context_windows at ha
    obtain ⟨ip, hip, hne, hae⟩ :=
      captureLoopWindows_mem sink (processedContexts ips) skip 0 a ha
    refine ⟨ip, hip, hne, hae, ?_⟩
    intro h0
    omega

/-- C8 amended witness: the address 4 emitted for a frame with `ip = 5`
comes from that eligible frame. -/
theorem capture_emitted_addresses_characterized_witness :
    ∃ f ∈ [UnwindFrame.mk true 5 false], frameEligible f = true ∧
      4 = reportingAddress f ∧ (4 = 0 → f.isSignalFrame = false ∧
        f.ip = 1) :=
  (capture_emitted_addresses_characterized true [⟨true, 5, false⟩] [] 0
    neverDone).1 4 (by decide)

/-- C1: when an address resolves through the DWARF walk and the sink never
reports "done", the logical frames are emitted in the order of the DFS
stack — innermost first — one per function DIE containing the address up
to the enclosing physical function, every frame before the last carrying
`inlined = true` and the final frame (the first non-inline function on the
stack, the enclosing physical function) carrying `inlined = false`. -/
theorem resolve_emits_innermost_first_inline_flags (entry : Nat)
    (env : ResolveEnv) (m : ModuleEnv) (tree : DieTree) (loc : Option SrcLoc)
    (stack : List Die)
    (hInit : env.initialized = true)
    (hMod : env.moduleFirst = some m)
    (hCu : m.cu = some (tree, loc))
    (hStack : dfsFindPath tree = some stack)
    (hPhys : ∃ d ∈ stack, isFunctionDie d = true ∧ d.hasAddr = true ∧
      isInlineFunctionDie d = false) :
    (resolve entry env neverDone).map (fun e => (e.symbol, e.isInline)) =
      (emittedDies stack).map
        (fun d => (d.funcName.map Prod.fst, isInlineFunctionDie d)) ∧
    (resolve entry env neverDone).map (fun e => e.isInline) =
      List.replicate ((resolve entry env neverDone).length - 1) true ++
        [false] := by
  have h1 : resolve entry env neverDone =
      resolve_in_module entry neverDone m := by
    unfold resolve
    rw [hInit, hMod]
    rfl
  have h2 : resolve_in_module entry neverDone m =
      resolve_from_dfs_die_stack entry neverDone stack loc 0 := by
    unfold resolve_in_module
    rw [hCu]
    show (match dfsFindPath tree with
      | none => resolve_in_symbol_table entry m
      | some stack0 =>
        resolve_from_dfs_die_stack entry neverDone stack0 loc 0) =
      resolve_from_dfs_die_stack entry neverDone stack loc 0
    rw [hStack]
  have hproj := resolve_from_dfs_neverDone_proj entry stack loc 0
  constructor
  · rw [h1, h2]
    exact hproj
  · rw [h1, h2]
    have hlen :
        (resolve_from_dfs_die_stack entry neverDone stack loc 0).length =
          (emittedDies stack).length := by
      have := congrArg List.length hproj
      simpa using this
    have hflags :
        (resolve_from_dfs_die_stack entry neverDone stack loc 0).map
            (fun e => e.isInline) =
          (emittedDies stack).map isInlineFunctionDie := by
      have := congrArg (List.map Prod.snd) hproj
      simpa [List.map_map, Function.comp] using this
    rw [hflags, hlen]
    exact emittedDies_flags stack hPhys

/-- C1 witness: resolving through a CU in which the address lies in an
inlined subroutine nested in a subprogram emits the inline frame first and
the physical frame last. -/
theorem resolve_emits_innermost_first_inline_flags_witness :
    dfsFindPath exampleCuTree =
      some [exampleInlineDie, exampleSubprogramDie, exampleCuDie] ∧
    ((resolve 99 exampleResolveEnv neverDone).map
        (fun e => (e.symbol, e.isInline)) =
      (emittedDies [exampleInlineDie, exampleSubprogramDie,
          exampleCuDie]).map
        (fun d => (d.funcName.map Prod.fst, isInlineFunctionDie d)) ∧
    (resolve 99 exampleResolveEnv neverDone).map (fun e => e.isInline) =
      List.replicate ((resolve 99 exampleResolveEnv neverDone).length - 1)
        true ++ [false]) :=
  ⟨by rfl,
    resolve_emits_innermost_first_inline_flags 99 exampleResolveEnv _
      exampleCuTree _ [exampleInlineDie, exampleSubprogramDie, exampleCuDie]
      rfl rfl rfl (by rfl)
      ⟨exampleSubprogramDie, by decide⟩⟩

/-- C3: when no module or usable debug information is found for the
address (session never initialized, no module found even after
re-reporting the mappings, or a module without compilation unit coverage
and without a symbol-table name), `resolve` emits exactly one bare logical
frame whose physical address is the input address and whose symbol and
source accessors return empty values.  The embedded `resolve` is a total
function — every such path ends in the bare-frame emission rather than an
error — matching the failure taxonomy in which only allocation failure
escapes. -/
theorem resolve_without_debug_info_single_bare_frame (entry : Nat)
    (env : ResolveEnv) (sink : Nat → Bool)
    (demangle : String → Option String) (transcode : String → String)
    (h : envHasNoInfo env = true) :
    resolve entry env sink = [bareEntry entry] ∧
    (bareEntry entry).physical = entry ∧
    (bareEntry entry).symbolText demangle transcode = "" ∧
    (bareEntry entry).sourceLocation transcode =
      { fileName := "", lineNumber := 0 } := by
  refine ⟨?_, rfl, rfl, rfl⟩
  unfold envHasNoInfo at h
  rw [Bool.or_eq_true] at h
  unfold resolve
  cases hinit : env.initialized with
  | false => simp [hinit]
  | true =>
    rw [hinit] at h
    simp only [Bool.not_true] at h
    rcases h with hfalse | hmods
    · cases hfalse
    · simp only [hinit, Bool.not_true]
      rw [if_neg (by decide)]
      rcases hm1 : env.moduleFirst with _ | m
      · rw [hm1] at hmods
        have hmods' : (match env.moduleAfterReport with
            | some m2 => moduleHasNoInfo m2
            | none => true) = true := hmods
        rcases hm2 : env.moduleAfterReport with _ | m2
        · rfl
        · rw [hm2] at hmods'
          have hinfo : moduleHasNoInfo m2 = true := hmods'
          exact resolve_in_module_noinfo entry sink m2 hinfo
      · rw [hm1] at hmods
        have hinfo : moduleHasNoInfo m = true := hmods
        exact resolve_in_module_noinfo entry sink m hinfo

/-- C3 witness: with an initialized session but no module found for the
address in either lookup, resolving address 42 yields exactly the bare
frame. -/
theorem resolve_without_debug_info_single_bare_frame_witness :
    envHasNoInfo ⟨true, none, none⟩ = true ∧
    (resolve 42 ⟨true, none, none⟩ neverDone = [bareEntry 42] ∧
      (bareEntry 42).physical = 42 ∧
      (bareEntry 42).symbolText (fun _ => none) (fun s => s) = "" ∧
      (bareEntry 42).sourceLocation (fun s => s) =
        { fileName := "", lineNumber := 0 }) :=
  ⟨by rfl,
    resolve_without_debug_info_single_bare_frame 42 ⟨true, none, none⟩
      neverDone (fun _ => none) (fun s => s) (by rfl)⟩

/-- C4: every logical frame emitted during a single resolve call — DFS
frames, symbol-table fallback frames and bare frames alike — carries the
input address as its physical address. -/
theorem resolve_physical_equals_input_address (entry : Nat)
    (env : ResolveEnv) (sink : Nat → Bool) :
    ∀ e ∈ resolve entry env sink, e.physical = entry := by
  intro e he
  unfold resolve at he
  split at he
  · rw [List.mem_singleton] at he
    subst he
    rfl
  · split at he
    · exact resolve_in_module_physical entry sink _ e he
    · split at he
      · exact resolve_in_module_physical entry sink _ e he
      · rw [List.mem_singleton] at he
        subst he
        rfl

/-- C4 witness: the inline frame emitted for the example environment
carries the input address 99. -/
theorem resolve_physical_equals_input_address_witness :
    (dfsEntry 99 exampleInlineDie (some ⟨"b.cpp", 11, 4⟩)).physical =
      99 :=
  resolve_physical_equals_input_address 99 exampleResolveEnv neverDone
    (dfsEntry 99 exampleInlineDie (some ⟨"b.cpp", 11, 4⟩))
    (by decide)

/-- C10: the libdw `logical_stacktrace_entry` stores the column number
read from the debug info, but the `source` / `u8_source` accessors build a
`basic_source_location`, which has only a file-name and a line-number
field: the result is independent of the stored column, and the column is
never exposed. -/
theorem source_location_carries_only_file_and_line (physical : Nat)
    (isInl mm : Bool) (sym fn : Option String) (ln c c' : Nat)
    (transcode : String → String) :
    (LogicalStacktraceEntry.mk physical isInl mm sym fn ln c).columnNumber
        = c ∧
    (LogicalStacktraceEntry.mk physical isInl mm sym fn ln
        c).sourceLocation transcode =
      (LogicalStacktraceEntry.mk physical isInl mm sym fn ln
        c').sourceLocation transcode ∧
    (LogicalStacktraceEntry.mk physical isInl mm sym fn ln
        c).sourceLocation transcode =
      { fileName := encodeFileName transcode fn, lineNumber := ln } :=
  ⟨rfl, rfl, rfl⟩

/-- C7 counterexample: when the very first attempt successfully enumerates
the foreign modules and finds that no module's range contains the address,
`remote_module_map::lookup` breaks out of the retry loop at once — one
attempt, no back-off — and returns none, not "at least ten attempts before
giving up". -/
theorem remote_lookup_not_found_gives_up_after_one_attempt :
    remote_module_map_lookup (fun _ => AttemptOutcome.notFound) =
      (none, 1, []) ∧ (1 : Nat) < lookup_retry_count := by
  constructor
  · rfl
  · decide

/-- C7 amended: when every attempt fails with an error (module
enumeration, module info, or file-name read), the lookup performs exactly
ten attempts, backs off after each failed attempt — yield, then 1 ms,
then 10 ms, then amounts increasing in 10 ms steps (capped at 100 ms by
`wait_before_retry`, a cap the ten attempts never reach) — and returns
none; a successful attempt that finds no containing module instead
returns none immediately, without retrying. -/
theorem remote_lookup_retry_backoff_amended (env : Nat → AttemptOutcome)
    (h : ∀ i, i < lookup_retry_count → attemptRetries (env i) = true) :
    remote_module_map_lookup env =
      (none, 10,
        [BackoffAction.yieldThread, BackoffAction.sleepMs 1,
         BackoffAction.sleepMs 10, BackoffAction.sleepMs 10,
         BackoffAction.sleepMs 20, BackoffAction.sleepMs 30,
         BackoffAction.sleepMs 40, BackoffAction.sleepMs 50,
         BackoffAction.sleepMs 60, BackoffAction.sleepMs 70]) := by
  unfold remote_module_map_lookup
  rw [remoteLookupLoop_all_retry env (List.range lookup_retry_count)
    (fun i hi => h i (List.mem_range.mp hi))]
  rfl

/-- C7 amended witness: a lookup whose module enumeration fails on all ten
attempts returns none after the full back-off schedule. -/
theorem remote_lookup_retry_backoff_amended_witness :
    remote_module_map_lookup (fun _ => AttemptOutcome.enumFail) =
      (none, 10,
        [BackoffAction.yieldThread, BackoffAction.sleepMs 1,
         BackoffAction.sleepMs 10, BackoffAction.sleepMs 10,
         BackoffAction.sleepMs 20, BackoffAction.sleepMs 30,
         BackoffAction.sleepMs 40, BackoffAction.sleepMs 50,
         BackoffAction.sleepMs 60, BackoffAction.sleepMs 70]) :=
  remote_lookup_retry_backoff_amended (fun _ => AttemptOutcome.enumFail)
    (fun _ _ => rfl)

/-- C9 counterexample: the iostream formatter prints the zero-valued
entry as width-many `'0'` characters with no `0x` prefix (`std::showbase`
adds the base prefix only to non-zero values), so the display of the zero
value is not "lowercase hexadecimal with a 0x prefix". -/
theorem format_entry_zero_has_no_hex_prefix :
    format_entry 64 0 = String.mk (List.replicate 18 '0') ∧
    (format_entry 64 0).data.take 2 ≠ ['0', 'x'] := by
  constructor
  · rfl
  · decide

/-- C9 amended: for a pointer-width value, the fmt/std formatter always —
zero included — produces `0x` followed by lowercase hexadecimal digits
zero-padded to a total width of 10 characters on 32-bit and 18 on 64-bit,
and reading the text back as hexadecimal recovers the value; the iostream
formatter produces the same text for every non-zero value, while for the
zero value it produces width-many zeros without the `0x` prefix (still the
correct width, still reading back as zero). -/
theorem address_display_amended (b v : Nat) (hb : b = 32 ∨ b = 64)
    (hv : v < 2 ^ b) :
    (stacktrace_entry_fmt b v).length = b / 4 + 2 ∧
    (stacktrace_entry_fmt b v).data.take 2 = ['0', 'x'] ∧
    ((stacktrace_entry_fmt b v).data.drop 2).all isLowerHexDigit = true ∧
    read_back_hex (stacktrace_entry_fmt b v) = v ∧
    (format_entry b v).length = b / 4 + 2 ∧
    read_back_hex (format_entry b v) = v ∧
    (v ≠ 0 → format_entry b v = stacktrace_entry_fmt b v) ∧
    (v = 0 → format_entry b v =
      String.mk (List.replicate (b / 4 + 2) '0')) := by
  have hbv : v < 16 ^ (b / 4) := by
    rcases hb with rfl | rfl
    · have h16 : (16 : Nat) ^ (32 / 4) = 2 ^ 32 := by norm_num
      rw [h16]
      exact hv
    · have h16 : (16 : Nat) ^ (64 / 4) = 2 ^ 64 := by norm_num
      rw [h16]
      exact hv
  have hk : 1 ≤ b / 4 := by rcases hb with rfl | rfl <;> norm_num
  have hdig : (hexDigits v).length ≤ b / 4 := hexDigits_length_le v _ hbv hk
  have hpadlen : (padZeros (b / 4) (hexDigits v)).length = b / 4 :=
    padZeros_length _ _ hdig
  have hval : hexCharsVal (padZeros (b / 4) (hexDigits v)) = v := by
    rw [hexCharsVal_padZeros, hexCharsVal_hexDigits]
  have hread : read_back_hex (stacktrace_entry_fmt b v) = v := by
    have hrfl : read_back_hex (stacktrace_entry_fmt b v) =
        hexCharsVal (padZeros (b / 4) (hexDigits v)) := rfl
    rw [hrfl, hval]
  refine ⟨?_, rfl, ?_, hread, ?_, ?_, ?_, ?_⟩
  · show ('0' :: 'x' :: padZeros (b / 4) (hexDigits v)).length = b / 4 + 2
    simp [hpadlen]
  · show (padZeros (b / 4) (hexDigits v)).all isLowerHexDigit = true
    exact padZeros_all_hex _ _ (hexCharsCore_all_hex (v + 1) v [] rfl)
  · by_cases hv0 : v = 0
    · subst hv0
      rcases hb with rfl | rfl <;> decide
    · rw [format_entry, if_neg hv0]
      show ('0' :: 'x' :: padZeros (b / 4) (hexDigits v)).length = b / 4 + 2
      simp [hpadlen]
  · by_cases hv0 : v = 0
    · subst hv0
      rcases hb with rfl | rfl <;> decide
    · rw [format_entry, if_neg hv0]
      exact hread
  · intro hv0
    rw [format_entry, if_neg hv0]
    rfl
  · intro hv0
    subst hv0
    rfl

/-- C9 amended witness: the 64-bit displays of the value 2748. -/
theorem address_display_amended_witness :
    (2748 : Nat) < 2 ^ 64 ∧
    ((stacktrace_entry_fmt 64 2748).length = 64 / 4 + 2 ∧
    (stacktrace_entry_fmt 64 2748).data.take 2 = ['0', 'x'] ∧
    ((stacktrace_entry_fmt 64 2748).data.drop 2).all isLowerHexDigit =
      true ∧
    read_back_hex (stacktrace_entry_fmt 64 2748) = 2748 ∧
    (format_entry 64 2748).length = 64 / 4 + 2 ∧
    read_back_hex (format_entry 64 2748) = 2748 ∧
    ((2748 : Nat) ≠ 0 → format_entry 64 2748 =
      stacktrace_entry_fmt 64 2748) ∧
    ((2748 : Nat) = 0 → format_entry 64 2748 =
      String.mk (List.replicate (64 / 4 + 2) '0'))) :=
  ⟨by norm_num,
    address_display_amended 64 2748 (Or.inr rfl) (by norm_num)⟩

end Hindsight
